import Mathlib

/-!
Shallow embedding of the `intns::memory` primitives: the `StackAllocator`
linear arena (StackAllocator.hpp / StackAllocator.cpp / Alignment.hpp) and the
`ObjectPool` with its `PoolLease` guard (ObjectPool.hpp / ObjectPool.tpp).

Machine addresses (`std::uintptr_t` markers) are modelled as `Nat`.  The one
place where 64-bit wraparound is essential is `align_address`, whose bitwise
complement only makes sense at a fixed width; it is modelled with an explicit
`% 2^64`.  The remaining marker arithmetic in the source acts on addresses of
a live buffer, for which `start + capacity` fits in the address space, so it
is modelled with exact `Nat` arithmetic; theorems that depend on the aligned
address being wrap-free carry an explicit address-space hypothesis.

Exceptions are modelled by `Option` / a success flag paired with the state the
object is left in (the C++ code always throws before mutating, so the
observable state on the exception path is the pre-call state).
-/

namespace IntnsMemory

/-- Size of the 64-bit address space, the modulus of `std::uintptr_t`
arithmetic. -/
def W : Nat := 2 ^ 64

/-- Embeds `align_address` from Alignment.hpp:
`(addr + alignment - 1) & ~(alignment - 1)` computed on `std::uintptr_t`.
The 64-bit complement `~(alignment - 1)` equals `(W - alignment) % W`, and the
sum is reduced `% W` exactly as the machine does. -/
def align_address (addr alignment : Nat) : Nat :=
  ((addr + alignment - 1) % W) &&& ((W - alignment) % W)

/-- Embeds `is_power_of_two` from Alignment.hpp:
`value != 0 && (value & (value - 1)) == 0`. -/
def is_power_of_two (value : Nat) : Bool :=
  value != 0 && (value &&& (value - 1)) == 0

/-- Embeds `is_aligned` from Alignment.hpp: `(addr & (alignment - 1)) == 0`. -/
def is_aligned (addr alignment : Nat) : Bool :=
  (addr &&& (alignment - 1)) == 0

/-- State of a `StackAllocator`: the `start_marker_`, `active_marker_` and
`capacity_` fields.  (`owns_memory_` only affects the destructor and is not
needed by any claim.) -/
structure StackAllocator where
  start_marker : Nat
  active_marker : Nat
  capacity : Nat
  deriving DecidableEq, Repr

/-- Platform value of `alignof(std::max_align_t)` (16 on the x86-64 / AArch64
targets this library is built for). -/
def MAX_ALIGN : Nat := 16

namespace StackAllocator

/-- Embeds `StackAllocator::StackAllocator(void* memory, size_type size)` from
StackAllocator.cpp.  `memory` is the integer value of the supplied pointer
(null is address 0).  `none` models the thrown `std::runtime_error`. -/
def from_buffer (memory size : Nat) : Option StackAllocator :=
  if memory = 0 then none
  else if size = 0 then none
  else
    let start := align_address memory MAX_ALIGN
    let offset := start - memory
    if offset ≠ 0 ∧ offset + MAX_ALIGN ≥ size then none
    else some { start_marker := start, active_marker := start,
                capacity := size - offset }

/-- Embeds `StackAllocator::alloc(size, alignment)` (StackAllocator.hpp).
Returns the allocated address (`none` models returning `nullptr`) together
with the post-call allocator state; the function is total, modelling the
`noexcept` contract.  `last_valid_start_pos` is exact `Nat` arithmetic: the
guard `size ≤ capacity` has already passed, so the source's unsigned
subtraction does not underflow for a real buffer. -/
def alloc (s : StackAllocator) (size alignment : Nat) :
    Option Nat × StackAllocator :=
  if size = 0 ∨ s.capacity < size then (none, s)
  else if ¬ is_power_of_two alignment ∨ s.capacity < alignment then (none, s)
  else
    let aligned_pos := align_address s.active_marker alignment
    let last_valid_start_pos := s.start_marker + s.capacity - size
    if aligned_pos < s.start_marker ∨ last_valid_start_pos < aligned_pos then
      (none, s)
    else
      (some aligned_pos, { s with active_marker := aligned_pos + size })

/-- Embeds `StackAllocator::save_checkpoint()`. -/
def save_checkpoint (s : StackAllocator) : Nat :=
  s.active_marker

/-- Embeds `StackAllocator::restore_checkpoint(checkpoint)`.  The `Bool` is
`false` when the source throws `std::runtime_error` (invalid checkpoint); the
paired state is the observable allocator state afterwards (the throw happens
before any mutation). -/
def restore_checkpoint (s : StackAllocator) (checkpoint : Nat) :
    Bool × StackAllocator :=
  if checkpoint < s.start_marker ∨ s.start_marker + s.capacity < checkpoint then
    (false, s)
  else
    (true, { s with active_marker := checkpoint })

/-- Embeds `StackAllocator::reset()`. -/
def reset (s : StackAllocator) : StackAllocator :=
  { s with active_marker := s.start_marker }

/-- Embeds `StackAllocator::bytes_used()`: `active_marker_ - start_marker_`. -/
def bytes_used (s : StackAllocator) : Nat :=
  s.active_marker - s.start_marker

/-- Embeds `StackAllocator::bytes_remaining()`: `capacity_ - bytes_used()`. -/
def bytes_remaining (s : StackAllocator) : Nat :=
  s.capacity - s.bytes_used

/-- The allocator invariant from the spec: `base ≤ cursor ≤ base + capacity`. -/
def Inv (s : StackAllocator) : Prop :=
  s.start_marker ≤ s.active_marker ∧
    s.active_marker ≤ s.start_marker + s.capacity

instance (s : StackAllocator) : Decidable (Inv s) := by
  unfold Inv; infer_instance

/-- Address-space side condition for a real buffer: the buffer, and one more
buffer-length past it, fit below `2^64`.  Any buffer obtained from the OS
satisfies this; it guarantees that `align_address` never wraps inside `alloc`
(where `alignment ≤ capacity` is checked before aligning). -/
def Fits (s : StackAllocator) : Prop :=
  s.start_marker + s.capacity + s.capacity ≤ W

instance (s : StackAllocator) : Decidable (Fits s) := by
  unfold Fits; infer_instance

end StackAllocator

/-- One client call on a `StackAllocator`, used to quantify over call
sequences. -/
inductive ArenaOp where
  | alloc (size alignment : Nat)
  | reset
  | restore (checkpoint : Nat)

/-- Runs one operation, returning the new state and, for a successful
allocation, the returned `(address, size, alignment)` triple. -/
def runOp (s : StackAllocator) : ArenaOp → StackAllocator × Option (Nat × Nat × Nat)
  | .alloc size alignment =>
      let r := s.alloc size alignment
      (r.2, r.1.map (fun a => (a, size, alignment)))
  | .reset => (s.reset, none)
  | .restore c => ((s.restore_checkpoint c).2, none)

/-- Runs a sequence of operations, collecting every successful allocation's
`(address, size, alignment)` triple. -/
def run (s : StackAllocator) : List ArenaOp → StackAllocator × List (Nat × Nat × Nat)
  | [] => (s, [])
  | op :: ops =>
      let r := runOp s op
      let rest := run r.1 ops
      (rest.1, r.2.toList ++ rest.2)

/-- State of an `ObjectPool` (ObjectPool.hpp): the `objects_` deque, with the
deque's back at the tail of the list, and the `size_limit_` field.  The mutex
serialises calls and plays no part in single-call functional behaviour.  The
acquire/release policies are passed to each operation as functions
`α → α` (the `on_acquire` / `on_release` hooks mutate the object in place and
are `noexcept` by the `AcquireHook` / `ReleaseHook` concepts); the default
`NoOpPoolPolicy` is the identity. -/
structure ObjectPool (α : Type) where
  objects : List α
  size_limit : Option Nat
  deriving DecidableEq, Repr

namespace ObjectPool

/-- Embeds the guard `size_limit_.has_value() && objects_.size() >=
size_limit_.value()` shared by `add` and `try_add`. -/
def sizeLimitReached {α : Type} (p : ObjectPool α) : Bool :=
  match p.size_limit with
  | some l => decide (l ≤ p.objects.length)
  | none => false

/-- Embeds `ObjectPool::ObjectPool(init_size, limit)` (ObjectPool.tpp).
`none` models the thrown `std::runtime_error`; `default_val` is the
default-constructed `value_type()`, and `rel` the `ReleasePolicy::on_release`
hook applied to each created object. -/
def create {α : Type} (default_val : α) (rel : α → α) (init_size : Nat)
    (limit : Option Nat) : Option (ObjectPool α) :=
  if (match limit with | some l => decide (l < init_size) | none => false) then
    none
  else
    let limit' := if limit = some 0 then none else limit
    some { objects := List.replicate init_size (rel default_val),
           size_limit := limit' }

/-- Embeds `ObjectPool::take()` and `ObjectPool::try_take()` (their observable
behaviour is identical: `take` throws `std::runtime_error` exactly where
`try_take` returns `std::nullopt`, modelled as `none`).  `acq` is the
`AcquirePolicy::on_acquire` hook. -/
def take {α : Type} (acq : α → α) (p : ObjectPool α) :
    Option (α × ObjectPool α) :=
  match p.objects.getLast? with
  | none => none
  | some v => some (acq v, { p with objects := p.objects.dropLast })

/-- Embeds `ObjectPool::add(back)`; `none` models the thrown
`std::runtime_error` when the size limit is reached (the pool is unchanged in
that case — the throw precedes any mutation).  `rel` is the
`ReleasePolicy::on_release` hook, invoked before insertion. -/
def add {α : Type} (rel : α → α) (p : ObjectPool α) (back : α) :
    Option (ObjectPool α) :=
  if sizeLimitReached p then none
  else some { p with objects := p.objects ++ [rel back] }

/-- Embeds `ObjectPool::try_add(back)`.  The hook `rel` is total (`noexcept`
per the `ReleaseHook` concept), so the source's `catch` branch is
unreachable. -/
def try_add {α : Type} (rel : α → α) (p : ObjectPool α) (back : α) :
    Bool × ObjectPool α :=
  if sizeLimitReached p then (false, p)
  else (true, { p with objects := p.objects ++ [rel back] })

/-- Outcome of `reserve_impl`: normal return value, or an exception
propagating out (`threw`, only possible when `ThrowOnError`). -/
inductive ReserveResult where
  | ok
  | failed
  | threw
  deriving DecidableEq, Repr

/-- Embeds `ObjectPool::reserve_impl<ThrowOnError>(target_size)`
(ObjectPool.tpp).  Object creation (`emplace_back` of a default-constructed
value plus the `noexcept` release hook) cannot fail for the value types the
pool accepts, so the rollback `catch` branch is unreachable in the model. -/
def reserve_impl {α : Type} (throwOnError : Bool) (default_val : α)
    (rel : α → α) (p : ObjectPool α) (target_size : Nat) :
    ReserveResult × ObjectPool α :=
  if target_size = 0 then
    if throwOnError then (.threw, p) else (.ok, p)
  else
    let current_size := p.objects.length
    if target_size ≤ current_size then (.ok, p)
    else if (match p.size_limit with
             | some l => decide (l < target_size)
             | none => false) then
      (if throwOnError then .threw else .failed, p)
    else
      let grown := p.objects ++
        List.replicate (target_size - current_size) (rel default_val)
      (.ok, { p with objects := grown })

end ObjectPool

/-- State of a `PoolLease` (ObjectPool.hpp): the leased object, the active
flag, and the state of the pool it will return to.  The pool state is carried
by value: the destructor is modelled as a function from the pre-destruction
pool state to the post-destruction one. -/
structure PoolLease (α : Type) where
  pool : ObjectPool α
  obj : α
  active : Bool

namespace PoolLease

/-- Embeds `PoolLease::~PoolLease()`: when still active it calls the THROWING
`ObjectPool::add` (not `try_add`).  The `Bool` is `false` when that `add`
throws out of the destructor (`LimitExceeded`); the paired pool state is the
observable state afterwards. -/
def destroy {α : Type} (rel : α → α) (l : PoolLease α) : Bool × ObjectPool α :=
  if l.active then
    match l.pool.add rel l.obj with
    | some p => (true, p)
    | none => (false, l.pool)
  else (true, l.pool)

end PoolLease

/-! Arithmetic facts about the alignment helpers. -/

theorem exists_pow_of_and_pred {v : Nat} (hv : v ≠ 0) (h : v &&& (v - 1) = 0) :
    ∃ k, v = 2 ^ k := by
  induction v using Nat.strong_induction_on with
  | _ v ih =>
    match v, hv, h with
    | 1, _, _ => exact ⟨0, rfl⟩
    | (n + 2), _, h =>
      rcases Nat.even_or_odd (n + 2) with ⟨m, hm⟩ | ⟨m, hm⟩
      · have hm2 : n + 2 = 2 * m := by omega
        have hmpos : 1 ≤ m := by omega
        rw [hm2] at h
        have hstep : m &&& (m - 1) = 0 := by
          apply Nat.eq_of_testBit_eq
          intro i
          rw [Nat.zero_testBit, Nat.testBit_land]
          have h1 : m.testBit i = (2 * m).testBit (i + 1) := by
            rw [Nat.testBit_succ]
            congr 1
            omega
          have h2 : (m - 1).testBit i = (2 * m - 1).testBit (i + 1) := by
            rw [Nat.testBit_succ]
            congr 1
            omega
          rw [h1, h2, ← Nat.testBit_land, h]
          exact Nat.zero_testBit _
        obtain ⟨k, hk⟩ := ih m (by omega) (by omega) hstep
        exact ⟨k + 1, by rw [pow_succ]; omega⟩
      · have hm2 : n + 2 = 2 * m + 1 := by omega
        have hmpos : 1 ≤ m := by omega
        rw [hm2] at h
        have hsub : 2 * m + 1 - 1 = 2 * m := by omega
        rw [hsub] at h
        exfalso
        have hmz : m = 0 := by
          apply Nat.eq_of_testBit_eq
          intro i
          rw [Nat.zero_testBit]
          have h1 : m.testBit i = (2 * m + 1).testBit (i + 1) := by
            rw [Nat.testBit_succ]
            congr 1
            omega
          have h2 : m.testBit i = (2 * m).testBit (i + 1) := by
            rw [Nat.testBit_succ]
            congr 1
            omega
          have h3 : m.testBit i = ((2 * m + 1) &&& (2 * m)).testBit (i + 1) := by
            rw [Nat.testBit_land, ← h1, ← h2, Bool.and_self]
          rw [h3, h]
          exact Nat.zero_testBit _
        omega

theorem is_power_of_two_spec {v : Nat} (h : is_power_of_two v = true) :
    ∃ k, v = 2 ^ k := by
  unfold is_power_of_two at h
  rw [Bool.and_eq_true, bne_iff_ne, beq_iff_eq] at h
  exact exists_pow_of_and_pred h.1 h.2

/-- Masking with the 64-bit complement of `2^k - 1` rounds down to a multiple
of `2^k` for any value that fits in 64 bits. -/
theorem and_high_mask {k x : Nat} (hk : k ≤ 64) (hx : x < W) :
    x &&& (W - 2 ^ k) = 2 ^ k * (x / 2 ^ k) := by
  have h64 : 64 - k + k = 64 := by omega
  have hmask : W - 2 ^ k = (2 ^ (64 - k) - 1) <<< k := by
    rw [Nat.shiftLeft_eq, Nat.sub_mul, one_mul, ← Nat.pow_add, h64]
    rfl
  have hrhs : 2 ^ k * (x / 2 ^ k) = (x >>> k) <<< k := by
    rw [Nat.shiftRight_eq_div_pow, Nat.shiftLeft_eq, Nat.mul_comm]
  rw [hmask, hrhs]
  apply Nat.eq_of_testBit_eq
  intro i
  rw [Nat.testBit_land, Nat.testBit_shiftLeft, Nat.testBit_shiftLeft,
    Nat.testBit_shiftRight, Nat.testBit_two_pow_sub_one]
  by_cases hik : k ≤ i
  · have hki : k + (i - k) = i := by omega
    rw [hki]
    by_cases hi64 : i < 64
    · simp [hik, show i - k < 64 - k by omega]
    · have hbit : x.testBit i = false := by
        apply Nat.testBit_lt_two_pow
        calc x < 2 ^ 64 := hx
          _ ≤ 2 ^ i := Nat.pow_le_pow_right (by norm_num) (by omega)
      simp [hbit, hik]
  · simp [show ¬ (i ≥ k) by omega]

/-- Closed form of `align_address` on power-of-two alignments, provided the
sum `addr + alignment` does not wrap around the 64-bit address space. -/
theorem align_address_eq {addr k : Nat} (hk : k ≤ 64) (h : addr + 2 ^ k ≤ W) :
    align_address addr (2 ^ k) = 2 ^ k * ((addr + 2 ^ k - 1) / 2 ^ k) := by
  have hpos : 0 < 2 ^ k := Nat.two_pow_pos k
  have hx : addr + 2 ^ k - 1 < W := by omega
  have hWpos : 0 < W := Nat.two_pow_pos 64
  have hle : 2 ^ k ≤ W := Nat.pow_le_pow_right (by norm_num) hk
  unfold align_address
  rw [Nat.mod_eq_of_lt hx, Nat.mod_eq_of_lt (by omega : W - 2 ^ k < W)]
  exact and_high_mask hk hx

/-- The aligned address is the least multiple of the alignment at or above
`addr`: it is at least `addr`, less than `addr + alignment`, and divisible by
the alignment. -/
theorem align_address_spec {addr k : Nat} (hk : k ≤ 64) (h : addr + 2 ^ k ≤ W) :
    addr ≤ align_address addr (2 ^ k) ∧
      align_address addr (2 ^ k) ≤ addr + 2 ^ k - 1 ∧
      align_address addr (2 ^ k) % 2 ^ k = 0 := by
  rw [align_address_eq hk h]
  have hpos : 0 < 2 ^ k := Nat.two_pow_pos k
  have hdm := Nat.div_add_mod (addr + 2 ^ k - 1) (2 ^ k)
  have hml := Nat.mod_lt (addr + 2 ^ k - 1) hpos
  refine ⟨by omega, by omega, Nat.mul_mod_right _ _⟩

/-! Behaviour of the individual arena operations. -/

namespace StackAllocator

theorem alloc_none_eq (s : StackAllocator) (size alignment : Nat)
    (h : (s.alloc size alignment).1 = none) : (s.alloc size alignment).2 = s := by
  unfold alloc at *
  dsimp only at *
  split_ifs at * <;> simp_all

theorem alloc_some (s : StackAllocator) (size alignment a : Nat)
    (h : (s.alloc size alignment).1 = some a) :
    size ≠ 0 ∧ size ≤ s.capacity ∧ is_power_of_two alignment = true ∧
      alignment ≤ s.capacity ∧
      a = align_address s.active_marker alignment ∧
      s.start_marker ≤ a ∧ a ≤ s.start_marker + s.capacity - size ∧
      (s.alloc size alignment).2 =
        { s with active_marker := a + size } := by
  unfold alloc at *
  dsimp only at *
  split_ifs at * with h1 h2 h3
  push_neg at h1 h2 h3
  injection h with ha
  subst ha
  exact ⟨h1.1, h1.2, h2.1, h2.2, rfl, h3.1, h3.2, rfl⟩

theorem alloc_preserves (s : StackAllocator) (size alignment : Nat)
    (hInv : s.Inv) :
    ((s.alloc size alignment).2).Inv ∧
      (s.alloc size alignment).2.start_marker = s.start_marker ∧
      (s.alloc size alignment).2.capacity = s.capacity := by
  rcases hr : (s.alloc size alignment).1 with _ | a
  · rw [alloc_none_eq s size alignment hr]
    exact ⟨hInv, rfl, rfl⟩
  · obtain ⟨h0, hsz, hp2, hal, ha, hlo, hhi, heq⟩ :=
      alloc_some s size alignment a hr
    rw [heq]
    refine ⟨⟨?_, ?_⟩, rfl, rfl⟩ <;> simp only <;> omega

/-- Under the invariant and the address-space bound, aligning the cursor to a
valid alignment (a power of two at most `capacity`) is exact: the result is at
least the cursor, overshoots by less than the alignment, and is a multiple of
it. -/
theorem align_spec_of_fits (s : StackAllocator) (alignment : Nat)
    (hInv : s.Inv) (hFit : s.Fits) (hp2 : is_power_of_two alignment = true)
    (hal : alignment ≤ s.capacity) :
    s.active_marker ≤ align_address s.active_marker alignment ∧
      align_address s.active_marker alignment ≤
        s.active_marker + alignment - 1 ∧
      align_address s.active_marker alignment % alignment = 0 := by
  obtain ⟨k, hk⟩ := is_power_of_two_spec hp2
  obtain ⟨hInv1, hInv2⟩ := hInv
  have hFit' : s.start_marker + s.capacity + s.capacity ≤ W := hFit
  have hWval : W = 2 ^ 64 := rfl
  have hcap : s.capacity ≤ 2 ^ 63 := by
    have : (2 : Nat) ^ 64 = 2 ^ 63 + 2 ^ 63 := by norm_num
    omega
  have hk63 : k ≤ 63 := by
    apply (Nat.pow_le_pow_iff_right (a := 2) (by norm_num)).mp
    calc (2 : Nat) ^ k = alignment := hk.symm
      _ ≤ s.capacity := hal
      _ ≤ 2 ^ 63 := hcap
  have hnw : s.active_marker + 2 ^ k ≤ W := by
    rw [← hk]
    omega
  obtain ⟨hs1, hs2, hs3⟩ :=
    @align_address_spec s.active_marker k (by omega) hnw
  subst hk
  exact ⟨hs1, hs2, hs3⟩

/-- Successful allocations return an address aligned to the requested
power-of-two alignment whose byte range stays inside the buffer. -/
theorem alloc_addr_spec (s : StackAllocator) (size alignment a : Nat)
    (hInv : s.Inv) (hFit : s.Fits)
    (h : (s.alloc size alignment).1 = some a) :
    a % alignment = 0 ∧ s.start_marker ≤ a ∧
      a + size ≤ s.start_marker + s.capacity := by
  obtain ⟨h0, hsz, hp2, hal, ha, hlo, hhi, heq⟩ :=
    alloc_some s size alignment a h
  obtain ⟨hs1, hs2, hs3⟩ := align_spec_of_fits s alignment hInv hFit hp2 hal
  subst ha
  exact ⟨hs3, hlo, by omega⟩

theorem reset_preserves (s : StackAllocator) :
    (s.reset).Inv ∧ s.reset.start_marker = s.start_marker ∧
      s.reset.capacity = s.capacity := by
  unfold reset Inv
  exact ⟨⟨Nat.le_refl _, Nat.le_add_right _ _⟩, rfl, rfl⟩

theorem restore_preserves (s : StackAllocator) (c : Nat) (hInv : s.Inv) :
    ((s.restore_checkpoint c).2).Inv ∧
      (s.restore_checkpoint c).2.start_marker = s.start_marker ∧
      (s.restore_checkpoint c).2.capacity = s.capacity := by
  unfold restore_checkpoint
  split_ifs with h
  · exact ⟨hInv, rfl, rfl⟩
  · push_neg at h
    exact ⟨⟨h.1, h.2⟩, rfl, rfl⟩

end StackAllocator

theorem runOp_preserves (s : StackAllocator) (op : ArenaOp) (hInv : s.Inv) :
    ((runOp s op).1).Inv ∧ (runOp s op).1.start_marker = s.start_marker ∧
      (runOp s op).1.capacity = s.capacity := by
  cases op with
  | alloc size alignment => exact s.alloc_preserves size alignment hInv
  | reset => exact s.reset_preserves
  | restore c => exact s.restore_preserves c hInv

theorem run_preserves (s : StackAllocator) (ops : List ArenaOp) (hInv : s.Inv) :
    ((run s ops).1).Inv ∧ (run s ops).1.start_marker = s.start_marker ∧
      (run s ops).1.capacity = s.capacity := by
  induction ops generalizing s with
  | nil => exact ⟨hInv, rfl, rfl⟩
  | cons op ops ih =>
    obtain ⟨h1, h2, h3⟩ := runOp_preserves s op hInv
    obtain ⟨g1, g2, g3⟩ := ih (runOp s op).1 h1
    exact ⟨g1, by rw [run]; simp only; omega, by rw [run]; simp only; omega⟩

theorem runOp_fits (s : StackAllocator) (op : ArenaOp) (hInv : s.Inv)
    (hFit : s.Fits) : ((runOp s op).1).Fits := by
  obtain ⟨h1, h2, h3⟩ := runOp_preserves s op hInv
  unfold StackAllocator.Fits at *
  rw [h2, h3]
  exact hFit

/-- Claim C3: every address returned by a successful `alloc` along any call
sequence is aligned to its requested alignment and its byte range lies inside
`[base, base + capacity)`, and the invariant `base ≤ cursor ≤ base + capacity`
holds after every operation (allocation, reset, checkpoint restore).  The
state after every operation is exactly the final state of some prefix of
`ops`, so quantifying over all `ops` covers every intermediate state. -/
theorem arena_alloc_aligned_and_in_bounds (s : StackAllocator)
    (ops : List ArenaOp) (hInv : s.Inv) (hFit : s.Fits) :
    ((run s ops).1).Inv ∧
      ∀ t ∈ (run s ops).2,
        t.1 % t.2.2 = 0 ∧ s.start_marker ≤ t.1 ∧
          t.1 + t.2.1 ≤ s.start_marker + s.capacity := by
  induction ops generalizing s with
  | nil =>
    refine ⟨hInv, ?_⟩
    intro t ht
    simp [run] at ht
  | cons op ops ih =>
    obtain ⟨h1, h2, h3⟩ := runOp_preserves s op hInv
    have hFit2 : ((runOp s op).1).Fits := runOp_fits s op hInv hFit
    obtain ⟨g1, g2⟩ := ih (runOp s op).1 h1 hFit2
    rw [run]
    dsimp only
    refine ⟨g1, ?_⟩
    intro t ht
    rw [List.mem_append] at ht
    rcases ht with ht | ht
    · cases op with
      | alloc size alignment =>
        dsimp only [runOp] at ht
        rcases hr : (s.alloc size alignment).1 with _ | a
        · rw [hr] at ht
          simp at ht
        · rw [hr] at ht
          simp at ht
          obtain ⟨hm, hlo, hhi⟩ :=
            s.alloc_addr_spec size alignment a hInv hFit hr
          rw [ht]
          exact ⟨hm, hlo, hhi⟩
      | reset => simp [runOp] at ht
      | restore c => simp [runOp] at ht
    · obtain ⟨hm, hlo, hhi⟩ := g2 t ht
      exact ⟨hm, by omega, by omega⟩

/-- Witness for C3 at a concrete allocator and operation sequence. -/
theorem arena_alloc_aligned_and_in_bounds_witness :
    (⟨1000, 1000, 100⟩ : StackAllocator).Inv ∧
      (⟨1000, 1000, 100⟩ : StackAllocator).Fits ∧
      (((run ⟨1000, 1000, 100⟩
          [.alloc 10 8, .alloc 3 4, .reset, .alloc 5 16]).1).Inv ∧
        ∀ t ∈ (run (⟨1000, 1000, 100⟩ : StackAllocator)
            [.alloc 10 8, .alloc 3 4, .reset, .alloc 5 16]).2,
          t.1 % t.2.2 = 0 ∧ 1000 ≤ t.1 ∧ t.1 + t.2.1 ≤ 1000 + 100) :=
  ⟨by decide, by decide,
    arena_alloc_aligned_and_in_bounds ⟨1000, 1000, 100⟩
      [.alloc 10 8, .alloc 3 4, .reset, .alloc 5 16] (by decide) (by decide)⟩

/-- Claim C4: `alloc` reports failure (the `nullptr` signal, `none`) exactly
when the size is zero, the alignment is not a power of two, the alignment
exceeds the capacity, or the aligned range `[aligned, aligned + size)` would
leave `[base, base + capacity)`; the operation is a total function (modelling
`noexcept`), and a failed attempt leaves the allocator — in particular
`bytes_used` — unchanged.  The case `size > capacity`, which the source
rejects early, is subsumed by the aligned range leaving the buffer. -/
theorem arena_alloc_failure_iff (s : StackAllocator) (size alignment : Nat)
    (hInv : s.Inv) (hFit : s.Fits) :
    ((s.alloc size alignment).1 = none ↔
      size = 0 ∨ is_power_of_two alignment = false ∨
        s.capacity < alignment ∨
        align_address s.active_marker alignment < s.start_marker ∨
        s.start_marker + s.capacity <
          align_address s.active_marker alignment + size) ∧
    ((s.alloc size alignment).1 = none →
      (s.alloc size alignment).2 = s ∧
        (s.alloc size alignment).2.bytes_used = s.bytes_used) := by
  have hunch : (s.alloc size alignment).1 = none →
      (s.alloc size alignment).2 = s ∧
        (s.alloc size alignment).2.bytes_used = s.bytes_used := by
    intro h
    have := StackAllocator.alloc_none_eq s size alignment h
    exact ⟨this, by rw [this]⟩
  refine ⟨⟨?_, ?_⟩, hunch⟩
  · -- a `none` result implies one of the conditions of the claim
    intro h
    obtain ⟨hInv1, hInv2⟩ := hInv
    rcases Bool.eq_false_or_eq_true (is_power_of_two alignment) with hp2 | hp2
    · -- main path: the alignment is a valid power of two
      rcases Nat.lt_or_ge s.capacity alignment with hca | hca
      · exact Or.inr (Or.inr (Or.inl hca))
      · obtain ⟨ha1, ha2, ha3⟩ := StackAllocator.align_spec_of_fits s alignment
          ⟨hInv1, hInv2⟩ hFit hp2 hca
        unfold StackAllocator.alloc at h
        dsimp only at h
        split_ifs at h with h1 h2 h3
        · rcases h1 with h1 | h1
          · exact Or.inl h1
          · -- size exceeds capacity, so the aligned range overruns the buffer
            refine Or.inr (Or.inr (Or.inr (Or.inr ?_)))
            omega
        · exfalso
          rcases h2 with h2 | h2
          · exact h2 hp2
          · omega
        · rcases h3 with h3 | h3
          · exact Or.inr (Or.inr (Or.inr (Or.inl h3)))
          · push_neg at h1
            refine Or.inr (Or.inr (Or.inr (Or.inr ?_)))
            omega
    · exact Or.inr (Or.inl hp2)
  · -- conversely each condition forces a `none` result
    intro hD
    rcases hr : (s.alloc size alignment).1 with _ | a
    · rfl
    exfalso
    obtain ⟨h0, hsz, hp2, hal, ha, hlo, hhi, heq⟩ :=
      StackAllocator.alloc_some s size alignment a hr
    rcases hD with h | h | h | h | h
    · exact h0 h
    · rw [hp2] at h
      exact Bool.noConfusion h
    · omega
    · rw [← ha] at h
      omega
    · rw [← ha] at h
      omega

/-- Witness for C4: a failed allocation (zero size) on a concrete allocator. -/
theorem arena_alloc_failure_iff_witness :
    (⟨1000, 1003, 100⟩ : StackAllocator).Inv ∧
      (⟨1000, 1003, 100⟩ : StackAllocator).Fits ∧
      (((((⟨1000, 1003, 100⟩ : StackAllocator).alloc 0 8).1 = none ↔
        (0 = 0 ∨ is_power_of_two 8 = false ∨ 100 < 8 ∨
          align_address 1003 8 < 1000 ∨
          1000 + 100 < align_address 1003 8 + 0)) ∧
      ((((⟨1000, 1003, 100⟩ : StackAllocator).alloc 0 8).1 = none →
        ((⟨1000, 1003, 100⟩ : StackAllocator).alloc 0 8).2 =
            (⟨1000, 1003, 100⟩ : StackAllocator) ∧
          ((⟨1000, 1003, 100⟩ : StackAllocator).alloc 0 8).2.bytes_used =
            (⟨1000, 1003, 100⟩ : StackAllocator).bytes_used)))) :=
  ⟨by decide, by decide,
    arena_alloc_failure_iff ⟨1000, 1003, 100⟩ 0 8 (by decide) (by decide)⟩

/-- Claim C5: a checkpoint taken by `save_checkpoint` when `bytes_used = u`
restores `bytes_used` to `u` after any sequence of operations, and the restore
succeeds; with an empty sequence this is the save/restore no-op round trip. -/
theorem arena_checkpoint_roundtrip (s : StackAllocator) (ops : List ArenaOp)
    (hInv : s.Inv) :
    (((run s ops).1).restore_checkpoint s.save_checkpoint).1 = true ∧
      ((((run s ops).1).restore_checkpoint s.save_checkpoint).2).bytes_used =
        s.bytes_used := by
  obtain ⟨hI, hs, hc⟩ := run_preserves s ops hInv
  obtain ⟨hInv1, hInv2⟩ := hInv
  unfold StackAllocator.save_checkpoint StackAllocator.restore_checkpoint
    StackAllocator.bytes_used
  split_ifs with h
  · rw [hs, hc] at h
    omega
  · refine ⟨rfl, ?_⟩
    dsimp only
    rw [hs]

/-- Witness for C5 on a concrete allocator and operation sequence. -/
theorem arena_checkpoint_roundtrip_witness :
    (⟨1000, 1010, 100⟩ : StackAllocator).Inv ∧
      ((((run ⟨1000, 1010, 100⟩ [.alloc 10 8, .alloc 3 4]).1).restore_checkpoint
          (⟨1000, 1010, 100⟩ : StackAllocator).save_checkpoint).1 = true ∧
        (((((run ⟨1000, 1010, 100⟩ [.alloc 10 8, .alloc 3 4]).1).restore_checkpoint
          (⟨1000, 1010, 100⟩ : StackAllocator).save_checkpoint).2).bytes_used =
          (⟨1000, 1010, 100⟩ : StackAllocator).bytes_used)) :=
  ⟨by decide,
    arena_checkpoint_roundtrip ⟨1000, 1010, 100⟩ [.alloc 10 8, .alloc 3 4]
      (by decide)⟩

/-- Claim C6: `restore_checkpoint` succeeds exactly when the checkpoint lies
in `[base, base + capacity]`, in which case the cursor is set to the
checkpoint (base and capacity unchanged); on failure (the
`InvalidCheckpoint` exception) the allocator is left unchanged. -/
theorem arena_restore_spec (s : StackAllocator) (c : Nat) :
    ((s.restore_checkpoint c).1 = true ↔
      s.start_marker ≤ c ∧ c ≤ s.start_marker + s.capacity) ∧
      ((s.restore_checkpoint c).1 = true →
        (s.restore_checkpoint c).2.active_marker = c ∧
          (s.restore_checkpoint c).2.start_marker = s.start_marker ∧
          (s.restore_checkpoint c).2.capacity = s.capacity) ∧
      ((s.restore_checkpoint c).1 = false → (s.restore_checkpoint c).2 = s) := by
  unfold StackAllocator.restore_checkpoint
  split_ifs with h
  · refine ⟨⟨?_, ?_⟩, ?_, fun _ => rfl⟩
    · intro hf
      exact absurd hf (by simp)
    · intro hc
      exfalso
      omega
    · intro hf
      exact absurd hf (by simp)
  · push_neg at h
    refine ⟨⟨fun _ => ⟨by omega, by omega⟩, fun _ => rfl⟩, ?_, ?_⟩
    · intro _
      exact ⟨rfl, rfl, rfl⟩
    · intro hf
      exact absurd hf (by simp)

/-- Claim C7: the caller-supplied-buffer constructor re-aligns the base
upward to the platform's maximum natural alignment, shrinking capacity by
exactly the alignment offset, and fails (`InvalidArgument`) exactly when the
pointer is null, the size is zero, or the buffer cannot hold a minimally
aligned region after adjustment (the source's guard
`offset != 0 && offset + min_usable_space >= size`).  The hypothesis rules
out wraparound when aligning a real pointer. -/
theorem arena_from_buffer_spec (memory size : Nat)
    (h : memory + MAX_ALIGN ≤ W) :
    (StackAllocator.from_buffer memory size = none ↔
      memory = 0 ∨ size = 0 ∨
        (memory % MAX_ALIGN ≠ 0 ∧
          size ≤ (align_address memory MAX_ALIGN - memory) + MAX_ALIGN)) ∧
      ∀ s, StackAllocator.from_buffer memory size = some s →
        s.start_marker = align_address memory MAX_ALIGN ∧
          s.start_marker % MAX_ALIGN = 0 ∧
          memory ≤ s.start_marker ∧
          s.start_marker - memory < MAX_ALIGN ∧
          s.capacity = size - (s.start_marker - memory) ∧
          s.active_marker = s.start_marker := by
  have h16 : MAX_ALIGN = 2 ^ 4 := rfl
  obtain ⟨ha1, ha2, ha3⟩ :=
    @align_address_spec memory 4 (by omega) (by rw [← h16]; exact h)
  rw [← h16] at ha1 ha2 ha3
  have hoff : align_address memory MAX_ALIGN = memory ↔
      memory % MAX_ALIGN = 0 := by
    constructor
    · intro he
      rw [← he]
      exact ha3
    · intro hm
      have h16v : MAX_ALIGN = 16 := rfl
      rw [h16v] at ha1 ha2 ha3 hm ⊢
      omega
  unfold StackAllocator.from_buffer
  dsimp only
  split_ifs with h1 h2 h3
  · refine ⟨⟨fun _ => Or.inl h1, fun _ => rfl⟩, ?_⟩
    intro s hs
    exact hs.elim
  · refine ⟨⟨fun _ => Or.inr (Or.inl h2), fun _ => rfl⟩, ?_⟩
    intro s hs
    exact hs.elim
  · obtain ⟨h3a, h3b⟩ := h3
    refine ⟨⟨fun _ => ?_, fun _ => rfl⟩, ?_⟩
    · refine Or.inr (Or.inr ⟨?_, by omega⟩)
      intro hm
      exact h3a ((by omega : align_address memory MAX_ALIGN = memory ↔
        align_address memory MAX_ALIGN - memory = 0).mp (hoff.mpr hm))
    · intro s hs
      exact hs.elim
  · push_neg at h3
    refine ⟨⟨fun hf => hf.elim, fun hD => ?_⟩, ?_⟩
    · exfalso
      rcases hD with hD | hD | hD
      · exact h1 hD
      · exact h2 hD
      · obtain ⟨hDa, hDb⟩ := hD
        have hne : align_address memory MAX_ALIGN - memory ≠ 0 := by
          intro hz
          exact hDa (hoff.mp (by omega))
        exact absurd hDb (by have := h3 hne; omega)
    · intro s hs
      injection hs with hs
      subst hs
      dsimp only
      refine ⟨rfl, ha3, ha1, by omega, rfl, rfl⟩

/-- Witness for C7 at a concrete unaligned 100-byte buffer at address 8. -/
theorem arena_from_buffer_spec_witness :
    8 + MAX_ALIGN ≤ W ∧
      ((StackAllocator.from_buffer 8 100 = none ↔
        (8 : Nat) = 0 ∨ (100 : Nat) = 0 ∨
          (8 % MAX_ALIGN ≠ 0 ∧
            100 ≤ (align_address 8 MAX_ALIGN - 8) + MAX_ALIGN)) ∧
      ∀ s, StackAllocator.from_buffer 8 100 = some s →
        s.start_marker = align_address 8 MAX_ALIGN ∧
          s.start_marker % MAX_ALIGN = 0 ∧
          8 ≤ s.start_marker ∧
          s.start_marker - 8 < MAX_ALIGN ∧
          s.capacity = 100 - (s.start_marker - 8) ∧
          s.active_marker = s.start_marker) :=
  ⟨by decide, arena_from_buffer_spec 8 100 (by decide)⟩

/-! Object pool claims. -/

/-- Claim C1 (code bug): the spec and the constructor's own documentation
treat a limit of exactly zero as the "unlimited" sentinel, but the source
checks `init_size > limit` before converting the sentinel, so any nonzero
initial size with limit 0 throws instead of building an unlimited pool.  With
`init_size = 0` the sentinel is honoured and the stored limit becomes
`nullopt`. -/
theorem pool_zero_limit_sentinel_bug :
    ObjectPool.create (0 : Nat) id 1 (some 0) = none ∧
      ObjectPool.create (0 : Nat) id 0 (some 0) =
        some { objects := [], size_limit := none } := by
  constructor <;> rfl

/-- Counterexample to claim C2: for the pool constructed with initial size 3
and limit 5, the third subsequent add does NOT succeed — `try_add` already
returns `false` on the third call (the claim asserts the first three adds all
succeed and only the fourth fails). -/
theorem pool_limit_third_add_fails :
    ObjectPool.create (0 : Nat) id 3 (some 5) =
        some ⟨[0, 0, 0], some 5⟩ ∧
      (ObjectPool.try_add id (⟨[0, 0, 0], some 5⟩ : ObjectPool Nat) 0).1 =
        true ∧
      (ObjectPool.try_add id
        (ObjectPool.try_add id
          (⟨[0, 0, 0], some 5⟩ : ObjectPool Nat) 0).2 0).1 = true ∧
      (ObjectPool.try_add id
        (ObjectPool.try_add id
          (ObjectPool.try_add id
            (⟨[0, 0, 0], some 5⟩ : ObjectPool Nat) 0).2 0).2 0).1 = false := by
  decide

/-- Claim C2 as amended: for a pool constructed with initial size 3 and limit
5, each of the next TWO adds succeeds (sizes 4 and 5), and the THIRD add
attempt fails via `try_add` returning `false` (and `add` throwing), leaving
the pool size at 5. -/
theorem pool_limit_two_adds_then_third_fails :
    ObjectPool.create (0 : Nat) id 3 (some 5) =
        some ⟨[0, 0, 0], some 5⟩ ∧
      ObjectPool.try_add id (⟨[0, 0, 0], some 5⟩ : ObjectPool Nat) 0 =
        (true, ⟨[0, 0, 0, 0], some 5⟩) ∧
      ObjectPool.try_add id (⟨[0, 0, 0, 0], some 5⟩ : ObjectPool Nat) 0 =
        (true, ⟨[0, 0, 0, 0, 0], some 5⟩) ∧
      ObjectPool.try_add id (⟨[0, 0, 0, 0, 0], some 5⟩ : ObjectPool Nat) 0 =
        (false, ⟨[0, 0, 0, 0, 0], some 5⟩) ∧
      ObjectPool.add id (⟨[0, 0, 0, 0, 0], some 5⟩ : ObjectPool Nat) 0 =
        none ∧
      (⟨[0, 0, 0, 0, 0], some 5⟩ : ObjectPool Nat).objects.length = 5 := by
  decide

/-- Claim C8: `take` fails (PoolExhausted) exactly on the empty pool; on a
pool of size `n ≥ 1` it removes and returns the most recently added (back)
item leaving size `n - 1`, an `add` of that item afterwards restores size `n`
(the size-limit invariant permitting), and concretely a pool holding `[A]`
returns `B` after `add B` then `take`.  Hooks are the default no-op policy
(`id`). -/
theorem pool_take_lifo {α : Type} (p : ObjectPool α) (A B : α)
    (h : p.objects ≠ [])
    (hlim : ∀ l, p.size_limit = some l → p.objects.length ≤ l) :
    (∀ q : ObjectPool α, ObjectPool.take id q = none ↔ q.objects = []) ∧
      (∃ v p2, ObjectPool.take id p = some (v, p2) ∧
        p.objects.getLast? = some v ∧
        p2.objects.length = p.objects.length - 1 ∧
        ∃ p3, ObjectPool.add id p2 v = some p3 ∧
          p3.objects.length = p.objects.length) ∧
      (ObjectPool.add id { objects := [A], size_limit := none } B).bind
          (ObjectPool.take id) =
        some (B, { objects := [A], size_limit := none }) := by
  refine ⟨?_, ?_, ?_⟩
  case refine_3 => rfl
  · intro q
    unfold ObjectPool.take
    cases hq : q.objects.getLast? with
    | none =>
      rw [List.getLast?_eq_none_iff] at hq
      simp [hq]
    | some v =>
      have hne : q.objects ≠ [] := by
        intro he
        rw [he] at hq
        exact Option.noConfusion hq
      simp [hne]
  · have hlen : 1 ≤ p.objects.length := List.length_pos.mpr h
    obtain ⟨v, hv⟩ : ∃ v, p.objects.getLast? = some v := by
      cases hq : p.objects.getLast? with
      | none => exact absurd (List.getLast?_eq_none_iff.mp hq) h
      | some v => exact ⟨v, rfl⟩
    refine ⟨v, { p with objects := p.objects.dropLast }, ?_, hv, ?_, ?_⟩
    · unfold ObjectPool.take
      rw [hv]
      rfl
    · exact List.length_dropLast p.objects
    · have hnr : ObjectPool.sizeLimitReached
          ({ p with objects := p.objects.dropLast } : ObjectPool α) = false := by
        unfold ObjectPool.sizeLimitReached
        cases hsl : p.size_limit with
        | none => rfl
        | some l =>
          have := hlim l hsl
          have hd : p.objects.dropLast.length = p.objects.length - 1 :=
            List.length_dropLast p.objects
          simp only [hd]
          simp only [decide_eq_false_iff_not]
          omega
      refine ⟨{ p with objects := p.objects.dropLast ++ [v] }, ?_, ?_⟩
      · unfold ObjectPool.add
        rw [hnr]
        rfl
      · simp only [List.length_append, List.length_dropLast,
          List.length_singleton]
        omega

/-- Witness for C8 on the concrete pool holding `[10, 20]` with no limit. -/
theorem pool_take_lifo_witness :
    ((⟨[10, 20], none⟩ : ObjectPool Nat).objects ≠ [] ∧
      (∀ l, (⟨[10, 20], none⟩ : ObjectPool Nat).size_limit = some l →
        (⟨[10, 20], none⟩ : ObjectPool Nat).objects.length ≤ l)) ∧
      ((∀ q : ObjectPool Nat, ObjectPool.take id q = none ↔ q.objects = []) ∧
        (∃ v p2,
          ObjectPool.take id (⟨[10, 20], none⟩ : ObjectPool Nat) =
            some (v, p2) ∧
          (⟨[10, 20], none⟩ : ObjectPool Nat).objects.getLast? = some v ∧
          p2.objects.length =
            (⟨[10, 20], none⟩ : ObjectPool Nat).objects.length - 1 ∧
          ∃ p3, ObjectPool.add id p2 v = some p3 ∧
            p3.objects.length =
              (⟨[10, 20], none⟩ : ObjectPool Nat).objects.length) ∧
        (ObjectPool.add id { objects := [(1 : Nat)], size_limit := none }
            2).bind (ObjectPool.take id) =
          some (2, { objects := [1], size_limit := none })) :=
  ⟨⟨by decide, fun l hl => Option.noConfusion hl⟩,
    pool_take_lifo ⟨[10, 20], none⟩ 1 2 (by decide)
      (fun l hl => Option.noConfusion hl)⟩

/-- Claim C9: for every pool state, the throwing `reserve(0)`
(`reserve_impl<true>`) raises (`threw`), while the non-throwing
`try_reserve(0)` (`reserve_impl<false>`) returns success, both leaving the
pool — in particular its size — unchanged. -/
theorem pool_reserve_zero_asymmetry {α : Type} (default_val : α)
    (rel : α → α) (p : ObjectPool α) :
    ObjectPool.reserve_impl true default_val rel p 0 =
        (ObjectPool.ReserveResult.threw, p) ∧
      ObjectPool.reserve_impl false default_val rel p 0 =
        (ObjectPool.ReserveResult.ok, p) := by
  constructor <;> rfl

/-- Claim C10: destroying a still-active `PoolLease` calls the throwing
`add`, so when the pool is at its size limit the destructor lets the
`LimitExceeded` exception escape (failure flag `false`) and the item is not
returned — the pool is unchanged. -/
theorem pool_lease_destructor_throws {α : Type} (rel : α → α)
    (p : ObjectPool α) (x : α) (k : Nat)
    (hl : p.size_limit = some k) (hk : k ≤ p.objects.length) :
    PoolLease.destroy rel { pool := p, obj := x, active := true } =
      (false, p) := by
  have hadd : ObjectPool.add rel p x = none := by
    unfold ObjectPool.add ObjectPool.sizeLimitReached
    rw [hl]
    simp [hk]
  unfold PoolLease.destroy
  simp [hadd]

/-- Witness for C10: a pool of two items with limit 2 is at its limit, and
destroying an active lease reports the escaped exception. -/
theorem pool_lease_destructor_throws_witness :
    (⟨[1, 2], some 2⟩ : ObjectPool Nat).size_limit = some 2 ∧
      2 ≤ (⟨[1, 2], some 2⟩ : ObjectPool Nat).objects.length ∧
      PoolLease.destroy id
          { pool := (⟨[1, 2], some 2⟩ : ObjectPool Nat), obj := 7,
            active := true } =
        (false, (⟨[1, 2], some 2⟩ : ObjectPool Nat)) :=
  ⟨rfl, by decide,
    pool_lease_destructor_throws id ⟨[1, 2], some 2⟩ 7 2 rfl (by decide)⟩

end IntnsMemory
